import Mathlib

/-!
Shallow embedding of the core geometry routines of the `spicedmoon`
library: frame changes (`coordinates.py`), signed phase and latitude /
longitude branch corrections (`core.py`), the synthetic ephemeris
builder (`geotic.py` / `selenic.py` / `basics.py`), zenith / azimuth
with rotation correction (`angular.py`), the retrying kernel loader
(`basics.py`), and the colatitude helper (`angular.py`).

External SPICE primitives (`pxform`, `spkpos`, `reclat`, `eul2m`,
`phaseq`, `str2et`) supply opaque numerical data; they are modelled as
function parameters / fields of an environment record, since the
library only composes their outputs.  Machine floats are modelled as
exact rationals.
-/

namespace Spicedmoon

/-- A 3-vector of rationals (modelling a numpy float64 3-array). -/
structure Vec3 where
  x : ℚ
  y : ℚ
  z : ℚ
deriving DecidableEq, Repr

instance : Inhabited Vec3 := ⟨⟨0, 0, 0⟩⟩

/-- A 3×3 matrix stored by rows (modelling a SPICE rotation matrix). -/
structure Mat3 where
  r1 : Vec3
  r2 : Vec3
  r3 : Vec3
deriving DecidableEq, Repr

/-- Dot product of two 3-vectors. -/
def dot (a b : Vec3) : ℚ := a.x * b.x + a.y * b.y + a.z * b.z

/-- SPICE `mxv`: matrix times vector. -/
def mxv (m : Mat3) (v : Vec3) : Vec3 := ⟨dot m.r1 v, dot m.r2 v, dot m.r3 v⟩

/-- SPICE `mtxv`: transpose of the matrix times vector. -/
def mtxv (m : Mat3) (v : Vec3) : Vec3 :=
  ⟨m.r1.x * v.x + m.r2.x * v.y + m.r3.x * v.z,
   m.r1.y * v.x + m.r2.y * v.y + m.r3.y * v.z,
   m.r1.z * v.x + m.r2.z * v.y + m.r3.z * v.z⟩

/-- Componentwise subtraction of 3-vectors. -/
def vsub (a b : Vec3) : Vec3 := ⟨a.x - b.x, a.y - b.y, a.z - b.z⟩

/-- Division of a 3-vector by a scalar. -/
def vdiv (a : Vec3) (c : ℚ) : Vec3 := ⟨a.x / c, a.y / c, a.z / c⟩

/-- The external Ephemeris & Frame Service (SPICE) as consumed by the
frame-change code: `pxform sourceFrame targetFrame et` is the rotation
matrix, and `spkposMoonEarth frame et` is the position of the Moon
relative to Earth in `frame` at `et`
(`spice.spkpos("MOON", et, frame, "NONE", "EARTH")`). -/
structure SpiceEnv where
  pxform : String → String → ℚ → Mat3
  spkposMoonEarth : String → ℚ → Vec3

/-- Whether `pat` is an initial segment of `cs`. -/
def charsStartWith : List Char → List Char → Bool
  | [], _ => true
  | _ :: _, [] => false
  | p :: ps, c :: cs => p == c && charsStartWith ps cs

/-- Whether `pat` occurs as a contiguous run somewhere in `cs`. -/
def charsOccur (pat : List Char) : List Char → Bool
  | [] => charsStartWith pat []
  | c :: cs => charsStartWith pat (c :: cs) || charsOccur pat cs

/-- Python's `"MOON" in s` substring test, over the underlying
character list. -/
def containsMOON (s : String) : Bool := charsOccur "MOON".data s.data

/-- `coordinates._change_frames`: if `"MOON" not in target_frame`,
apply the rotation directly; otherwise subtract the Moon's position
relative to Earth in the source frame (re-centering on the Moon) and
then rotate. -/
def changeFrames (env : SpiceEnv) (coords : Vec3)
    (sourceFrame targetFrame : String) (et : ℚ) : Vec3 :=
  if !containsMOON targetFrame then
    mxv (env.pxform sourceFrame targetFrame et) coords
  else
    let moonPosSatref := env.spkposMoonEarth sourceFrame et
    let rotation := env.pxform sourceFrame targetFrame et
    mxv rotation (vsub coords moonPosSatref)

/-- `core.get_moon_data` phase block: `phase = phaseq(et) * dpr`,
`phase2 = phaseq(et + 1) * dpr`, and if `phase2 < phase` the emitted
phase is `-phase`. -/
def signedPhase (phaseq : ℚ → ℚ) (dpr : ℚ) (etDate : ℚ) : ℚ :=
  let phase := phaseq etDate * dpr
  let phase2 := phaseq (etDate + 1) * dpr
  if phase2 < phase then -phase else phase

/-- `core.get_moon_data` latitude reflection block (`limit_lat = 90`,
`limit_lon = 180`): latitudes beyond ±90 are reflected and the
longitude shifted by 180 in the opposite sense. -/
def reflectLat (latObs lonObs : ℚ) : ℚ × ℚ :=
  if latObs > 90 then (90 + (90 - latObs), lonObs - 180)
  else if latObs < -90 then (-90 - (90 + latObs), lonObs + 180)
  else (latObs, lonObs)

/-- `while lon > 180: lon -= 360` (`limit_lon * 2 = 360`). -/
def wrapGT (lon : ℚ) : ℚ :=
  if lon > 180 then wrapGT (lon - 360) else lon
termination_by (⌈(lon + 180) / 360⌉ : ℤ).toNat
decreasing_by
  have h1 : (1 : ℚ) < (lon + 180) / 360 := by
    rw [lt_div_iff₀ (by norm_num : (0:ℚ) < 360)]
    linarith
  have h2 : ((lon - 360 + 180) / 360) = (lon + 180) / 360 - 1 := by ring
  rw [h2, Int.ceil_sub_one]
  have h3 : (1 : ℤ) < ⌈(lon + 180) / 360⌉ := Int.lt_ceil.mpr (by exact_mod_cast h1)
  omega

/-- `while lon < -180: lon += 360`. -/
def wrapLT (lon : ℚ) : ℚ :=
  if lon < -180 then wrapLT (lon + 360) else lon
termination_by (⌈(180 - lon) / 360⌉ : ℤ).toNat
decreasing_by
  have h1 : (1 : ℚ) < (180 - lon) / 360 := by
    rw [lt_div_iff₀ (by norm_num : (0:ℚ) < 360)]
    linarith
  have h2 : ((180 - (lon + 360)) / 360) = (180 - lon) / 360 - 1 := by ring
  rw [h2, Int.ceil_sub_one]
  have h3 : (1 : ℤ) < ⌈(180 - lon) / 360⌉ := Int.lt_ceil.mpr (by exact_mod_cast h1)
  omega

/-- `core.get_moon_data` longitude wrap block: first the `> 180` loop,
then the `< -180` loop. -/
def normLon (lon : ℚ) : ℚ := wrapLT (wrapGT lon)

/-- `coordinates.to_planetographic_same_frame` longitude wrap block:
first the `< -180` loop, then the `> 180` loop. -/
def normLonCoords (lon : ℚ) : ℚ := wrapGT (wrapLT lon)

/-! ### Synthetic observer-ephemeris builder (`geotic.py` / `selenic.py`) -/

/-- `numpy.arange start stop step` for a positive step, in exact
arithmetic: `start + k * step` for `k = 0, …, ⌈(stop - start)/step⌉ - 1`. -/
def arange (start stop step : ℚ) : List ℚ :=
  (List.range (⌈(stop - start) / step⌉ : ℤ).toNat).map (fun k => start + k * step)

/-- `polynomial_degree = 5` in `_create_earth_point_kernel` /
`_create_moon_point_kernel`. -/
def polynomialDegree : ℕ := 5

/-- `min_states_polynomial = polynomial_degree + 1`. -/
def minStatesPolynomial : ℕ := polynomialDegree + 1

/-- `left_states = int(min_states_polynomial / 2)`. -/
def leftStates : ℕ := minStatesPolynomial / 2

/-- `right_states = left_states + min_states_polynomial % 2`. -/
def rightStates : ℕ := leftStates + minStatesPolynomial % 2

/-- `delta_t = 1` (TDB seconds between states). -/
def deltaT : ℚ := 1

/-- The `Δt`-spaced window around one requested epoch:
`np.arange(et0 - delta_t * left_states, et0 + delta_t * right_states, delta_t)`. -/
def samplesFor (et0 : ℚ) : List ℚ :=
  arange (et0 - deltaT * leftStates) (et0 + deltaT * rightStates) deltaT

/-- `np.searchsorted(ets, e)` (side "left") on a sorted array: the
number of leading entries strictly below `e`. -/
def searchsorted (ets : List ℚ) (e : ℚ) : ℕ :=
  (ets.takeWhile (fun x => x < e)).length

/-- The merge step of the builder loop:
`if et_t not in ets: ets = np.insert(ets, np.searchsorted(ets, et_t), et_t)`. -/
def insertEpoch (ets : List ℚ) (e : ℚ) : List ℚ :=
  if e ∈ ets then ets else ets.insertIdx (searchsorted ets e) e

/-- The full epoch series built by `_create_earth_point_kernel` /
`_create_moon_point_kernel` from the requested epochs (the result of
`str2et` on each UTC time, modelled as already-resolved rationals). -/
def buildEts (times : List ℚ) : List ℚ :=
  times.foldl (fun ets et0 => (samplesFor et0).foldl insertEpoch ets) []

/-! ### Synthetic state series (`basics._calculate_states`) -/

/-- `basics._calculate_states` with the source→target `pxform` rotation
abstracted as a function of the epoch: position `i` is
`pxform(ets[i]) · pos_iau`; velocity `i` is the forward difference
`(pos[i+1] - pos[i]) / delta_t` for `i < n - 1`, and for the last row
the difference against one extra extrapolated position at
`ets[-1] + delta_t`. -/
def calculateStates (pxformAt : ℚ → Mat3) (ets : List ℚ) (posIau : Vec3)
    (deltaTime : ℚ) : List (Vec3 × Vec3) :=
  let pos : List Vec3 := ets.map (fun et => mxv (pxformAt et) posIau)
  let posNp1 : Vec3 := mxv (pxformAt ((ets.getLastD 0) + deltaTime)) posIau
  (List.range ets.length).map (fun i =>
    let p := pos.getD i default
    let v :=
      if i + 1 < ets.length then vdiv (vsub (pos.getD (i + 1) default) p) deltaTime
      else vdiv (vsub posNp1 p) deltaTime
    (p, v))

/-! ### Zenith / azimuth with rotation correction (`angular.get_zn_az`) -/

/-- The SPICE primitives consumed by `angular.get_zn_az`:
`reclat v = (r, lon, lat)`, `eul2m a1 a2 a3` with the fixed axis order
`(3, 2, 3)`, and the degree/radian conversion constants. -/
structure AngularEnv where
  reclat : Vec3 → ℚ × ℚ × ℚ
  eul2m : ℚ → ℚ → ℚ → Mat3
  rpd : ℚ
  dpr : ℚ

/-- The `ValueError` message raised by `angular.get_zn_az`. -/
def znAzErrMsg : String :=
  "longitude and colat must be provided when correct_rotating=True"

/-- `angular.get_zn_az`: when `correct_rotating` is set, missing
`longitude` or `colat` (Python `None`, modelled as `Option.none`)
raises a `ValueError` before any geometry; otherwise the position is
optionally rotated by `eul2m(-lon_rad, -colat_rad, 0, 3, 2, 3)`
transposed, then decomposed with `reclat` into zenith / azimuth. -/
def getZnAz (env : AngularEnv) (statePosZenith : Vec3) (correctRotating : Bool)
    (longitude colat : Option ℚ) : Except String (ℚ × ℚ) :=
  if correctRotating then
    match longitude, colat with
    | some lon, some cl =>
      let lonRad := (lon + 180) * env.rpd
      let colatRad := cl * env.rpd
      let bf2tp := env.eul2m (-lonRad) (-colatRad) 0
      let pos := mtxv bf2tp statePosZenith
      let (_, longi, lati) := env.reclat pos
      Except.ok (90 - lati * env.dpr, 180 - longi * env.dpr)
    | _, _ => Except.error znAzErrMsg
  else
    let (_, longi, lati) := env.reclat statePosZenith
    Except.ok (90 - lati * env.dpr, 180 - longi * env.dpr)

/-! ### Retrying kernel loader (`basics.furnsh_safer`) -/

/-- `basics.furnsh_safer`, with the outcome of the `n`-th call to
`spice.furnsh(k_path)` abstracted as `attempt n` (attempt `0` is the
`try` body; attempt `1` is the call after `time.sleep(2)`; the sleep
itself has no observable effect in this model).  A second failure is
not caught, so it propagates. -/
def furnshSafer (attempt : ℕ → Except String Unit) : Except String Unit :=
  match attempt 0 with
  | Except.ok _ => Except.ok ()
  | Except.error _ => attempt 1

/-! ### Colatitude / longitude arguments (`angular.get_colat_deg`,
`core.get_moon_datas_id`) -/

/-- Python's `%` on reals with a positive modulus (result in `[0, m)`,
sign of the divisor): `a - m * ⌊a / m⌋`. -/
def pymod (a m : ℚ) : ℚ := a - m * ⌊a / m⌋

/-- `angular.get_colat_deg`: `90 - (lat % 90)`. -/
def getColatDeg (lat : ℚ) : ℚ := 90 - pymod lat 90

/-- The longitude argument built in `core.get_moon_datas_id` (and in
`geoselenic._get_moon_datas_xyzs`): `longitude % 180`. -/
def lonPassed (longitude : ℚ) : ℚ := pymod longitude 180

/-- A concrete environment for exercising `changeFrames`. -/
def envW : SpiceEnv :=
  ⟨fun _ _ _ => ⟨⟨1, 0, 0⟩, ⟨0, 1, 0⟩, ⟨0, 0, 1⟩⟩, fun _ _ => ⟨1, 2, 3⟩⟩

/-! ## Theorems -/

/-- C1: `_change_frames` has exactly two branches: for every input
vector, source frame, target frame and epoch, if the target frame is
not Moon-body-fixed (no `"MOON"` in its name) the result is the
source→target rotation applied directly to the vector; if it is
Moon-body-fixed, the result is the same rotation applied to the vector
minus the Moon's position relative to Earth in the source frame at
that epoch. -/
theorem changeFrames_two_branches (env : SpiceEnv) (coords : Vec3)
    (sourceFrame targetFrame : String) (et : ℚ) :
    (containsMOON targetFrame = false →
      changeFrames env coords sourceFrame targetFrame et =
        mxv (env.pxform sourceFrame targetFrame et) coords) ∧
    (containsMOON targetFrame = true →
      changeFrames env coords sourceFrame targetFrame et =
        mxv (env.pxform sourceFrame targetFrame et)
          (vsub coords (env.spkposMoonEarth sourceFrame et))) := by
  constructor <;> intro h <;> simp [changeFrames, h]

theorem changeFrames_two_branches_witness :
    changeFrames envW ⟨4, 5, 6⟩ "J2000" "ITRF93" 0 =
      mxv (envW.pxform "J2000" "ITRF93" 0) ⟨4, 5, 6⟩ ∧
    changeFrames envW ⟨4, 5, 6⟩ "J2000" "MOON_ME" 0 =
      mxv (envW.pxform "J2000" "MOON_ME" 0)
        (vsub ⟨4, 5, 6⟩ (envW.spkposMoonEarth "J2000" 0)) :=
  ⟨(changeFrames_two_branches envW ⟨4, 5, 6⟩ "J2000" "ITRF93" 0).1 (by decide),
   (changeFrames_two_branches envW ⟨4, 5, 6⟩ "J2000" "MOON_ME" 0).2 (by decide)⟩

/-- C2: for every epoch, the engine computes the phase at that epoch
and again one second later (both converted to degrees by `dpr`); if
and only if the later value is strictly smaller, the emitted phase is
the negation of the first value; otherwise it is emitted unchanged. -/
theorem signedPhase_spec (phaseq : ℚ → ℚ) (dpr etDate : ℚ) :
    (phaseq (etDate + 1) * dpr < phaseq etDate * dpr →
      signedPhase phaseq dpr etDate = -(phaseq etDate * dpr)) ∧
    (¬ phaseq (etDate + 1) * dpr < phaseq etDate * dpr →
      signedPhase phaseq dpr etDate = phaseq etDate * dpr) := by
  constructor <;> intro h <;> simp [signedPhase, h]

theorem signedPhase_spec_witness :
    signedPhase (fun t => 10 - t) 1 0 = -((fun t : ℚ => 10 - t) 0 * 1) :=
  (signedPhase_spec (fun t => 10 - t) 1 0).1 (by norm_num)

/-- C3: for every raw observer selenographic latitude in `[-180, 180]`,
after the reflection step the emitted latitude lies in `[-90, 90]`: a
latitude above 90 becomes `180 - lat` with the longitude shifted down
by 180, a latitude below -90 becomes `-180 - lat` with the longitude
shifted up by 180, and a latitude already in `[-90, 90]` is left
unchanged (as is its longitude). -/
theorem reflectLat_spec (latObs lonObs : ℚ)
    (hlo : -180 ≤ latObs) (hhi : latObs ≤ 180) :
    (-90 ≤ (reflectLat latObs lonObs).1 ∧ (reflectLat latObs lonObs).1 ≤ 90) ∧
    (90 < latObs → reflectLat latObs lonObs = (180 - latObs, lonObs - 180)) ∧
    (latObs < -90 → reflectLat latObs lonObs = (-180 - latObs, lonObs + 180)) ∧
    (-90 ≤ latObs → latObs ≤ 90 → reflectLat latObs lonObs = (latObs, lonObs)) := by
  refine ⟨?_, ?_, ?_, ?_⟩
  · by_cases hgt : latObs > 90
    · simp only [reflectLat, if_pos hgt]
      constructor <;> linarith
    · by_cases hlt : latObs < -90
      · simp only [reflectLat, if_neg hgt, if_pos hlt]
        constructor <;> linarith
      · simp only [reflectLat, if_neg hgt, if_neg hlt]
        constructor <;> linarith
  · intro h
    simp only [reflectLat, if_pos h, Prod.mk.injEq]
    constructor
    · ring
    · trivial
  · intro h
    have hgt : ¬ latObs > 90 := by linarith
    simp only [reflectLat, if_neg hgt, if_pos h, Prod.mk.injEq]
    constructor
    · ring
    · trivial
  · intro ha hb
    have hgt : ¬ latObs > 90 := by linarith
    have hlt : ¬ latObs < -90 := by linarith
    simp only [reflectLat, if_neg hgt, if_neg hlt]

theorem reflectLat_spec_witness :
    (-90 ≤ (reflectLat 100 0).1 ∧ (reflectLat 100 0).1 ≤ 90) ∧
    (90 < (100 : ℚ) → reflectLat 100 0 = (180 - 100, 0 - 180)) ∧
    ((100 : ℚ) < -90 → reflectLat 100 0 = (-180 - 100, 0 + 180)) ∧
    (-90 ≤ (100 : ℚ) → (100 : ℚ) ≤ 90 → reflectLat 100 0 = (100, 0)) :=
  reflectLat_spec 100 0 (by norm_num) (by norm_num)

/-- C8: whenever the zenith/azimuth rotation correction is requested
without the longitude or colatitude parameter, `get_zn_az` fails
immediately with the configuration `ValueError` (and no zenith/azimuth
pair is produced); when correction is not requested, missing
longitude/colatitude causes no error and a result pair is returned. -/
theorem getZnAz_config_error (env : AngularEnv) (pos : Vec3) :
    (∀ cl, getZnAz env pos true none cl = Except.error znAzErrMsg) ∧
    (∀ lo, getZnAz env pos true lo none = Except.error znAzErrMsg) ∧
    (∀ lo cl, ∃ za, getZnAz env pos false lo cl = Except.ok za) := by
  refine ⟨fun cl => ?_, fun lo => ?_, fun lo cl => ?_⟩
  · cases cl <;> rfl
  · cases lo <;> rfl
  · rcases h : env.reclat pos with ⟨r, longi, lati⟩
    exact ⟨(90 - lati * env.dpr, 180 - longi * env.dpr), by simp [getZnAz, h]⟩

/-- C9: `furnsh_safer` attempts the load once; if that attempt raises,
it retries exactly once (after the sleep) and the outcome of the
second attempt — success or error — is returned unchanged, so a second
failure propagates to the caller; if the first attempt succeeds the
function returns normally without a second attempt. -/
theorem furnshSafer_retry_once (attempt : ℕ → Except String Unit) :
    (attempt 0 = Except.ok () → furnshSafer attempt = Except.ok ()) ∧
    (∀ e, attempt 0 = Except.error e → furnshSafer attempt = attempt 1) ∧
    (∀ e e2, attempt 0 = Except.error e → attempt 1 = Except.error e2 →
      furnshSafer attempt = Except.error e2) ∧
    (∀ e, attempt 0 = Except.error e → attempt 1 = Except.ok () →
      furnshSafer attempt = Except.ok ()) := by
  refine ⟨fun h => ?_, fun e h => ?_, fun e e2 h h2 => ?_, fun e h h2 => ?_⟩ <;>
    simp [furnshSafer, h]
  · exact h2
  · exact h2

theorem furnshSafer_retry_once_witness :
    furnshSafer (fun n => if n = 0 then Except.error "spice" else Except.ok ()) =
      (fun n => if n = 0 then Except.error "spice" else Except.ok ()) 1 :=
  (furnshSafer_retry_once
      (fun n => if n = 0 then Except.error "spice" else Except.ok ())).2.1
    "spice" rfl

/-- C10: the colatitude handed to the rotation correction is
`90 - (lat % 90)` and the longitude handed is `lon % 180` (Python
nonnegative-modulo, so the longitude lands in `[0, 180)`); the
colatitude equals the geometric `90 - lat` exactly when
`lat ∈ [0, 90)`, and in particular every negative latitude (such as
`-30`, which yields `30` instead of `120`) produces a colatitude
different from `90 - lat`. -/
theorem getColatDeg_mismatch (lat lon : ℚ) :
    (getColatDeg lat = 90 - lat ↔ 0 ≤ lat ∧ lat < 90) ∧
    getColatDeg (-30) = 30 ∧
    getColatDeg (-30) ≠ 90 - (-30) ∧
    (lat < 0 → getColatDeg lat ≠ 90 - lat) ∧
    0 ≤ lonPassed lon ∧ lonPassed lon < 180 := by
  have h90 : (0 : ℚ) < 90 := by norm_num
  have hiff : ∀ t : ℚ, (getColatDeg t = 90 - t ↔ 0 ≤ t ∧ t < 90) := by
    intro t
    have hfl : (getColatDeg t = 90 - t) ↔ (⌊t / 90⌋ : ℤ) = 0 := by
      unfold getColatDeg pymod
      constructor
      · intro h
        have h2 : (90 : ℚ) * (⌊t / 90⌋ : ℤ) = 0 := by linarith
        have h3 : ((⌊t / 90⌋ : ℤ) : ℚ) = 0 := by
          rcases mul_eq_zero.mp h2 with h4 | h4
          · norm_num at h4
          · exact h4
        exact_mod_cast h3
      · intro h
        rw [h]
        push_cast
        ring
    rw [hfl, Int.floor_eq_zero_iff, Set.mem_Ico, le_div_iff₀ h90,
      div_lt_one h90, zero_mul]
  have hm30 : getColatDeg (-30) = 30 := by
    have hf : (⌊(-30 : ℚ) / 90⌋ : ℤ) = -1 := by
      rw [Int.floor_eq_iff] <;> norm_num
    unfold getColatDeg pymod
    rw [hf]
    norm_num
  refine ⟨hiff lat, hm30, ?_, fun hneg heq => ?_, ?_, ?_⟩
  · rw [hm30]; norm_num
  · have := ((hiff lat).mp heq).1
    linarith
  · have h : lonPassed lon = 180 * Int.fract (lon / 180) := by
      unfold lonPassed pymod Int.fract
      have h180 : (180 : ℚ) * (lon / 180) = lon := by field_simp
      linarith
    rw [h]
    exact mul_nonneg (by norm_num) (Int.fract_nonneg _)
  · have h : lonPassed lon = 180 * Int.fract (lon / 180) := by
      unfold lonPassed pymod Int.fract
      have h180 : (180 : ℚ) * (lon / 180) = lon := by field_simp
      linarith
    rw [h]
    have := Int.fract_lt_one (lon / 180)
    linarith

theorem getColatDeg_mismatch_witness : getColatDeg (-30) ≠ 90 - (-30) :=
  (getColatDeg_mismatch (-30) 0).2.2.2.1 (by norm_num)

/-- The `> 180` loop ends at or below 180. -/
lemma wrapGT_le (lon : ℚ) : wrapGT lon ≤ 180 := by
  induction lon using wrapGT.induct with
  | case1 lon h ih => rw [wrapGT, if_pos h]; exact ih
  | case2 lon h => rw [wrapGT, if_neg h]; linarith

/-- The `> 180` loop never drops below -180 when it starts at or above
it (each subtraction starts from a value above 180). -/
lemma wrapGT_ge (lon : ℚ) (h0 : -180 ≤ lon) : -180 ≤ wrapGT lon := by
  induction lon using wrapGT.induct with
  | case1 lon h ih => rw [wrapGT, if_pos h]; exact ih (by linarith)
  | case2 lon h => rw [wrapGT, if_neg h]; exact h0

/-- When the input is already at or below 180, the `> 180` loop does
not run. -/
lemma wrapGT_id (lon : ℚ) (h : lon ≤ 180) : wrapGT lon = lon := by
  rw [wrapGT, if_neg (by linarith)]

/-- The `< -180` loop ends at or above -180. -/
lemma wrapLT_ge (lon : ℚ) : -180 ≤ wrapLT lon := by
  induction lon using wrapLT.induct with
  | case1 lon h ih => rw [wrapLT, if_pos h]; exact ih
  | case2 lon h => rw [wrapLT, if_neg h]; linarith

/-- The `< -180` loop never exceeds 180 when it starts at or below it. -/
lemma wrapLT_le (lon : ℚ) (h0 : lon ≤ 180) : wrapLT lon ≤ 180 := by
  induction lon using wrapLT.induct with
  | case1 lon h ih => rw [wrapLT, if_pos h]; exact ih (by linarith)
  | case2 lon h => rw [wrapLT, if_neg h]; exact h0

/-- When the input is already at or above -180, the `< -180` loop does
not run. -/
lemma wrapLT_id (lon : ℚ) (h : -180 ≤ lon) : wrapLT lon = lon := by
  rw [wrapLT, if_neg (by linarith)]

/-- C4: every emitted observer longitude lies in `[-180, 180]`: the
repeated ±360 wrapping (a total, terminating recursion in both loop
orders — `core.get_moon_data` wraps down then up, the coordinate
converter wraps up then down) lands every starting rational longitude
in `[-180, 180]`, and leaves an already in-range longitude unchanged. -/
theorem normLon_in_range (lon : ℚ) :
    (-180 ≤ normLon lon ∧ normLon lon ≤ 180) ∧
    (-180 ≤ normLonCoords lon ∧ normLonCoords lon ≤ 180) ∧
    (-180 ≤ lon → lon ≤ 180 → normLon lon = lon ∧ normLonCoords lon = lon) := by
  refine ⟨⟨wrapLT_ge _, wrapLT_le _ (wrapGT_le lon)⟩,
    ⟨wrapGT_ge _ (wrapLT_ge lon), wrapGT_le _⟩, fun h1 h2 => ?_⟩
  constructor
  · unfold normLon
    rw [wrapGT_id lon h2, wrapLT_id lon h1]
  · unfold normLonCoords
    rw [wrapLT_id lon h1, wrapGT_id lon h2]

theorem normLon_in_range_witness :
    (-180 ≤ normLon 1000 ∧ normLon 1000 ≤ 180) ∧
    (-180 ≤ normLonCoords 1000 ∧ normLonCoords 1000 ≤ 180) ∧
    (-180 ≤ (1000 : ℚ) → (1000 : ℚ) ≤ 180 →
      normLon 1000 = 1000 ∧ normLonCoords 1000 = 1000) :=
  normLon_in_range 1000

/-- Inserting at the `searchsorted` index splits the list at the first
entry not below `e`. -/
lemma insertIdx_searchsorted (e : ℚ) (l : List ℚ) :
    l.insertIdx (searchsorted l e) e =
      l.takeWhile (fun x => x < e) ++ e :: l.dropWhile (fun x => x < e) := by
  unfold searchsorted
  induction l with
  | nil => rfl
  | cons a l ih =>
    simp only [List.takeWhile_cons, List.dropWhile_cons]
    by_cases h : a < e
    · simp only [h, decide_True, if_true, List.length_cons, List.insertIdx_succ_cons,
        List.cons_append]
      rw [ih]
    · simp only [h, decide_False, Bool.false_eq_true, if_false, List.length_nil,
        List.insertIdx_zero, List.nil_append]

/-- Membership after one merge step: the inserted epoch and nothing
else is added. -/
lemma mem_insertEpoch (a e : ℚ) (ets : List ℚ) :
    a ∈ insertEpoch ets e ↔ a ∈ ets ∨ a = e := by
  by_cases h : e ∈ ets
  · rw [insertEpoch, if_pos h]
    constructor
    · exact Or.inl
    · rintro (h2 | rfl)
      · exact h2
      · exact h
  · rw [insertEpoch, if_neg h, insertIdx_searchsorted]
    have hsplit : a ∈ ets ↔
        a ∈ ets.takeWhile (fun x => x < e) ∨ a ∈ ets.dropWhile (fun x => x < e) := by
      conv_lhs => rw [← List.takeWhile_append_dropWhile (fun x : ℚ => decide (x < e)) ets]
      exact List.mem_append
    rw [List.mem_append, List.mem_cons, hsplit]
    tauto

/-- One merge step preserves strict sortedness. -/
lemma sorted_insertEpoch (e : ℚ) (ets : List ℚ) (hs : ets.Sorted (· < ·)) :
    (insertEpoch ets e).Sorted (· < ·) := by
  by_cases h : e ∈ ets
  · rw [insertEpoch, if_pos h]
    exact hs
  · rw [insertEpoch, if_neg h, insertIdx_searchsorted]
    induction ets with
    | nil => simp
    | cons a l ih =>
      rw [List.sorted_cons] at hs
      have hne : e ∉ l := fun hm => h (List.mem_cons_of_mem a hm)
      simp only [List.takeWhile_cons, List.dropWhile_cons]
      by_cases hae : a < e
      · simp only [hae, decide_True, if_true, List.cons_append]
        rw [List.sorted_cons]
        refine ⟨fun b hb => ?_, ih hs.2 hne⟩
        rcases List.mem_append.mp hb with hb1 | hb2
        · exact hs.1 b ((List.takeWhile_sublist _).mem hb1)
        · rcases List.mem_cons.mp hb2 with rfl | hb3
          · exact hae
          · exact hs.1 b ((List.dropWhile_sublist _).mem hb3)
      · have hea : e < a := by
          rcases lt_trichotomy e a with h1 | h1 | h1
          · exact h1
          · exact absurd (h1 ▸ List.mem_cons_self e l) h
          · exact absurd h1 hae
        simp only [hae, decide_False, Bool.false_eq_true, if_false, List.nil_append]
        rw [List.sorted_cons]
        refine ⟨fun b hb => ?_, List.sorted_cons.mpr hs⟩
        rcases List.mem_cons.mp hb with rfl | hb2
        · exact hea
        · exact lt_trans hea (hs.1 b hb2)

/-- Folding merge steps over a sample window preserves strict
sortedness. -/
lemma sorted_foldl_insertEpoch (l ets : List ℚ) (hs : ets.Sorted (· < ·)) :
    (l.foldl insertEpoch ets).Sorted (· < ·) := by
  induction l generalizing ets with
  | nil => exact hs
  | cons a l ih => exact ih _ (sorted_insertEpoch a ets hs)

/-- Folding merge steps never loses an epoch already present. -/
lemma mem_foldl_insertEpoch_of_mem (l : List ℚ) (ets : List ℚ) (a : ℚ)
    (h : a ∈ ets) : a ∈ l.foldl insertEpoch ets := by
  induction l generalizing ets with
  | nil => exact h
  | cons b l ih => exact ih _ ((mem_insertEpoch a b ets).mpr (Or.inl h))

/-- Every epoch of the window ends up in the merged series. -/
lemma mem_foldl_insertEpoch_self (l : List ℚ) (ets : List ℚ) (a : ℚ)
    (h : a ∈ l) : a ∈ l.foldl insertEpoch ets := by
  induction l generalizing ets with
  | nil => cases h
  | cons b l ih =>
    rcases List.mem_cons.mp h with rfl | h2
    · exact mem_foldl_insertEpoch_of_mem l _ a
        ((mem_insertEpoch a a ets).mpr (Or.inr rfl))
    · exact ih _ h2

/-- The outer fold over requested epochs preserves strict sortedness. -/
lemma sorted_foldl_window (times ets : List ℚ) (hs : ets.Sorted (· < ·)) :
    (times.foldl (fun acc et0 => (samplesFor et0).foldl insertEpoch acc) ets).Sorted
      (· < ·) := by
  induction times generalizing ets with
  | nil => exact hs
  | cons t ts ih => exact ih _ (sorted_foldl_insertEpoch _ _ hs)

/-- The outer fold never loses an epoch already present. -/
lemma mem_foldl_window_of_mem (times ets : List ℚ) (a : ℚ) (h : a ∈ ets) :
    a ∈ times.foldl (fun acc et0 => (samplesFor et0).foldl insertEpoch acc) ets := by
  induction times generalizing ets with
  | nil => exact h
  | cons t ts ih => exact ih _ (mem_foldl_insertEpoch_of_mem _ _ a h)

/-- Every window sample of every requested epoch ends up in the merged
series. -/
lemma mem_foldl_window_self (times ets : List ℚ) (e s : ℚ)
    (he : e ∈ times) (hs : s ∈ samplesFor e) :
    s ∈ times.foldl (fun acc et0 => (samplesFor et0).foldl insertEpoch acc) ets := by
  induction times generalizing ets with
  | nil => cases he
  | cons t ts ih =>
    rcases List.mem_cons.mp he with rfl | h2
    · exact mem_foldl_window_of_mem ts _ s (mem_foldl_insertEpoch_self _ _ s hs)
    · exact ih _ h2

/-- The window around a requested epoch in closed form. -/
lemma samplesFor_eq (e : ℚ) :
    samplesFor e = [e - 3, e - 2, e - 1, e, e + 1, e + 2] := by
  have hbound : (e + deltaT * rightStates - (e - deltaT * leftStates)) / deltaT = 6 := by
    norm_num [deltaT, leftStates, rightStates, minStatesPolynomial, polynomialDegree]
  have hceil : (⌈(e + deltaT * rightStates - (e - deltaT * leftStates)) / deltaT⌉ : ℤ) = 6 := by
    rw [hbound]
    exact_mod_cast Int.ceil_intCast 6
  unfold samplesFor arange
  rw [hceil]
  have hr : List.range (Int.toNat 6) = [0, 1, 2, 3, 4, 5] := rfl
  rw [hr]
  simp only [List.map]
  norm_num [deltaT, leftStates, rightStates, minStatesPolynomial, polynomialDegree]
  ring_nf
  simp

/-- C5 (amended): for every requested epoch `e` (degree 5, so a window
of 6 samples), the builder generates `⌈(d+1)/2⌉ = 3` samples strictly
before `e` and 3 samples at or after `e` — the epoch `e` itself plus 2
samples strictly after — each spaced `Δt = 1` apart; the merge into
the full epoch series skips an epoch already present (dedup on exact
equality) and otherwise inserts at the sorted position found by
`searchsorted`, preserving sortedness. -/
theorem samplesFor_window_merge (e x : ℚ) (ets : List ℚ) :
    samplesFor e = [e - 3, e - 2, e - 1, e, e + 1, e + 2] ∧
    ((samplesFor e).filter (fun s => s < e)).length = 3 ∧
    e ∈ samplesFor e ∧
    ((samplesFor e).filter (fun s => e < s)).length = 2 ∧
    List.Chain' (fun a b => b - a = deltaT) (samplesFor e) ∧
    (x ∈ ets → insertEpoch ets x = ets) ∧
    (ets.Sorted (· < ·) →
      (insertEpoch ets x).Sorted (· < ·) ∧ x ∈ insertEpoch ets x) := by
  have hs := samplesFor_eq e
  have t1 : e - 3 < e := by linarith
  have t2 : e - 2 < e := by linarith
  have t3 : e - 1 < e := by linarith
  have f0 : ¬ e < e := lt_irrefl e
  have f1 : ¬ e + 1 < e := by linarith
  have f2 : ¬ e + 2 < e := by linarith
  have g1 : ¬ e < e - 3 := by linarith
  have g2 : ¬ e < e - 2 := by linarith
  have g3 : ¬ e < e - 1 := by linarith
  have g4 : e < e + 1 := by linarith
  have g5 : e < e + 2 := by linarith
  refine ⟨hs, ?_, ?_, ?_, ?_, fun hx => ?_, fun hsort => ?_⟩
  · rw [hs]
    simp only [List.filter_cons, t1, t2, t3, f0, f1, f2, decide_True, decide_False,
      Bool.false_eq_true, if_true, if_false, List.filter_nil]
    rfl
  · rw [hs]
    simp
  · rw [hs]
    simp only [List.filter_cons, g1, g2, g3, g4, g5, f0, decide_True, decide_False,
      Bool.false_eq_true, if_true, if_false, List.filter_nil]
    rfl
  · rw [hs]
    simp only [List.chain'_cons, List.chain'_singleton, and_true, deltaT]
    refine ⟨by ring, by ring, by ring, by ring, by ring⟩
  · rw [insertEpoch, if_pos hx]
  · exact ⟨sorted_insertEpoch x ets hsort, (mem_insertEpoch x x ets).mpr (Or.inr rfl)⟩

theorem samplesFor_window_merge_witness :
    (insertEpoch [] 0).Sorted (· < ·) ∧ (0 : ℚ) ∈ insertEpoch [] 0 :=
  (samplesFor_window_merge 0 0 ([] : List ℚ)).2.2.2.2.2.2 (by simp)

/-- C5 counterexample to the claim as stated: at the requested epoch
`0` the window is `[-3, -2, -1, 0, 1, 2]`, which contains the epoch
`0` itself — a sample that is neither strictly before nor after the
epoch — so only 2 (not 3) of the 6 window samples lie after the
epoch. -/
theorem samplesFor_counterexample :
    samplesFor (0 : ℚ) = [-3, -2, -1, 0, 1, 2] ∧
    (0 : ℚ) ∈ samplesFor (0 : ℚ) ∧
    ((samplesFor (0 : ℚ)).filter (fun s => (0 : ℚ) < s)).length = 2 ∧
    ((samplesFor (0 : ℚ)).filter (fun s => (0 : ℚ) < s)).length ≠ 3 := by
  have hs := samplesFor_eq 0
  norm_num at hs
  refine ⟨hs, ?_, ?_, ?_⟩
  · rw [hs]
    simp
  · rw [hs]
    norm_num [List.filter_cons]
  · rw [hs]
    norm_num [List.filter_cons]

/-- In closed form the window is strictly sorted, hence duplicate-free. -/
lemma samplesFor_sorted (e : ℚ) : (samplesFor e).Sorted (· < ·) := by
  rw [samplesFor_eq]
  have hchain : List.Chain' (· < ·) [e - 3, e - 2, e - 1, e, e + 1, e + 2] := by
    simp only [List.chain'_cons, List.chain'_singleton, and_true]
    refine ⟨by linarith, by linarith, by linarith, by linarith, by linarith⟩
  exact List.chain'_iff_pairwise.mp hchain

/-- A duplicate-free list is no longer than any list containing it. -/
lemma nodup_subset_length_le (l1 l2 : List ℚ) (h1 : l1.Nodup) (h2 : l1 ⊆ l2) :
    l1.length ≤ l2.length := by
  rw [← List.toFinset_card_of_nodup h1]
  calc l1.toFinset.card
      ≤ l2.toFinset.card := by
        apply Finset.card_le_card
        intro a ha
        rw [List.mem_toFinset] at ha ⊢
        exact h2 ha
    _ ≤ l2.length := l2.toFinset_card_le

/-- Every window sample lies within the `[e - 3, e + 2]` neighborhood
of its requested epoch. -/
lemma samplesFor_bounds (e s : ℚ) (hs : s ∈ samplesFor e) :
    e - 3 ≤ s ∧ s ≤ e + 2 := by
  rw [samplesFor_eq] at hs
  simp only [List.mem_cons, List.not_mem_nil, or_false] at hs
  rcases hs with rfl | rfl | rfl | rfl | rfl | rfl <;> constructor <;> linarith

/-- C7: for every non-empty list of requested epochs, the merged epoch
series is strictly increasing (hence duplicate-free), and for each
requested epoch all 6 = `interpolationDegree + 1` pairwise-distinct
window samples around it are contained in the series, so the series
has at least 6 entries inside that epoch's `[e - 3, e + 2]`
neighborhood. -/
theorem buildEts_invariants (times : List ℚ) (hne : times ≠ []) :
    (buildEts times).Sorted (· < ·) ∧
    (buildEts times).Nodup ∧
    ∀ e ∈ times, samplesFor e ⊆ buildEts times ∧
      (samplesFor e).length = minStatesPolynomial ∧ (samplesFor e).Nodup ∧
      minStatesPolynomial ≤
        ((buildEts times).filter (fun s => e - 3 ≤ s ∧ s ≤ e + 2)).length := by
  have hsorted : (buildEts times).Sorted (· < ·) :=
    sorted_foldl_window times [] (by simp)
  have hlen : ∀ e : ℚ, (samplesFor e).length = minStatesPolynomial := by
    intro e
    rw [samplesFor_eq]
    rfl
  refine ⟨hsorted, hsorted.nodup, fun e he =>
    ⟨fun s hsm => mem_foldl_window_self times [] e s he hsm, hlen e,
     (samplesFor_sorted e).nodup, ?_⟩⟩
  rw [← hlen e]
  apply nodup_subset_length_le _ _ (samplesFor_sorted e).nodup
  intro s hsm
  rw [List.mem_filter]
  refine ⟨mem_foldl_window_self times [] e s he hsm, ?_⟩
  have hb := samplesFor_bounds e s hsm
  simp only [hb.1, hb.2, and_self, decide_True]

theorem buildEts_invariants_witness :
    (buildEts [0]).Sorted (· < ·) ∧
    (buildEts [0]).Nodup ∧
    ∀ e ∈ ([0] : List ℚ), samplesFor e ⊆ buildEts [0] ∧
      (samplesFor e).length = minStatesPolynomial ∧ (samplesFor e).Nodup ∧
      minStatesPolynomial ≤
        ((buildEts [0]).filter (fun s => e - 3 ≤ s ∧ s ≤ e + 2)).length :=
  buildEts_invariants [0] (by simp)

/-- `getD` of a map over `range` evaluates pointwise. -/
lemma getD_range_map {α : Type} (f : ℕ → α) (n i : ℕ) (d : α) (h : i < n) :
    ((List.range n).map f).getD i d = f i := by
  rw [List.getD_eq_getElem?_getD, List.getElem?_map, List.getElem?_range h]
  rfl

/-- `getD` of a mapped list evaluates through the map below the
length. -/
lemma getD_map_vec (g : ℚ → Vec3) (l : List ℚ) (i : ℕ) (d : Vec3)
    (h : i < l.length) : (l.map g).getD i d = g (l.getD i 0) := by
  rw [List.getD_eq_getElem?_getD, List.getElem?_map, List.getD_eq_getElem?_getD,
    List.getElem?_eq_getElem h]
  rfl

/-- C6: in the synthetic state series every emitted state has a
defined velocity: the series has one state per epoch; state `i` holds
position `pxform(ets[i]) · pos_iau`; for `i + 1 < n` its velocity is
the forward difference `(pos[i+1] - pos[i]) / Δt`; and the last
state's velocity is the difference against one extra extrapolated
position evaluated at `ets[-1] + Δt`. -/
theorem calculateStates_velocities (pxformAt : ℚ → Mat3) (ets : List ℚ)
    (posIau : Vec3) (dt : ℚ) (hne : ets ≠ []) :
    (calculateStates pxformAt ets posIau dt).length = ets.length ∧
    (∀ i, i < ets.length →
      ((calculateStates pxformAt ets posIau dt).getD i default).1 =
        mxv (pxformAt (ets.getD i 0)) posIau) ∧
    (∀ i, i + 1 < ets.length →
      ((calculateStates pxformAt ets posIau dt).getD i default).2 =
        vdiv (vsub (mxv (pxformAt (ets.getD (i + 1) 0)) posIau)
          (mxv (pxformAt (ets.getD i 0)) posIau)) dt) ∧
    ((calculateStates pxformAt ets posIau dt).getD (ets.length - 1) default).2 =
      vdiv (vsub (mxv (pxformAt (ets.getLastD 0 + dt)) posIau)
        (mxv (pxformAt (ets.getD (ets.length - 1) 0)) posIau)) dt := by
  have hlen : 0 < ets.length := List.length_pos.mpr hne
  refine ⟨by simp [calculateStates], fun i hi => ?_, fun i hi => ?_, ?_⟩
  · unfold calculateStates
    rw [getD_range_map _ _ _ _ hi]
    dsimp only
    exact getD_map_vec _ ets i default hi
  · have hi0 : i < ets.length := Nat.lt_of_succ_lt hi
    unfold calculateStates
    rw [getD_range_map _ _ _ _ hi0]
    dsimp only
    rw [if_pos hi, getD_map_vec _ ets i default hi0,
      getD_map_vec _ ets (i + 1) default hi]
  · have hlast : ets.length - 1 < ets.length := by omega
    have hnot : ¬ ets.length - 1 + 1 < ets.length := by omega
    unfold calculateStates
    rw [getD_range_map _ _ _ _ hlast]
    dsimp only
    rw [if_neg hnot, getD_map_vec _ ets (ets.length - 1) default hlast]

theorem calculateStates_velocities_witness :
    ((calculateStates (fun _ => ⟨⟨1, 0, 0⟩, ⟨0, 1, 0⟩, ⟨0, 0, 1⟩⟩) [0, 7]
        ⟨1, 2, 3⟩ 1).getD 0 default).2 =
      vdiv (vsub
        (mxv ((fun _ : ℚ => (⟨⟨1, 0, 0⟩, ⟨0, 1, 0⟩, ⟨0, 0, 1⟩⟩ : Mat3))
          (([0, 7] : List ℚ).getD 1 0)) ⟨1, 2, 3⟩)
        (mxv ((fun _ : ℚ => (⟨⟨1, 0, 0⟩, ⟨0, 1, 0⟩, ⟨0, 0, 1⟩⟩ : Mat3))
          (([0, 7] : List ℚ).getD 0 0)) ⟨1, 2, 3⟩)) 1 :=
  (calculateStates_velocities (fun _ => ⟨⟨1, 0, 0⟩, ⟨0, 1, 0⟩, ⟨0, 0, 1⟩⟩)
      [0, 7] ⟨1, 2, 3⟩ 1 (by simp)).2.2.1 0 (by simp)

end Spicedmoon
